import Mathlib

/-!
Verification of the multiscale dataset loader and the diffusion-vocoder
architecture assembly of this repository.

The development shallowly embeds, from the Python source:
  - MultiscaleTreeNode / build_multiscale_patch_index_map
    (codes/data/multiscale_dataset.py),
  - MultiScaleDataset.get_square_image, recursively_extract_patches and the
    HQ-pyramid part of MultiScaleDataset.getitem,
  - the construction loops of DiffusionVocoderWithRefTruncatedTop.init
    (input_block_chans push/pop discipline, spectrogram conditioning blocks,
    the only_train_dvae_connection_layers freezing pass) and the entry
    asserts plus rand_start/rand_stop computation of its forward method
    (codes/models/gpt_voice/unet_diffusion_vocoder_with_ref_trunc_top.py).

Machine integers are modelled as Nat/Int, Python floats as rationals
(every IEEE double is a rational), Python list mutation as explicit list
threading, and unbounded recursion by an explicit call-stack fuel where the
source recursion can fail to terminate (fuel-exhaustion at every fuel
models a Python RecursionError).
-/

/-! ## Tree model: MultiscaleTreeNode and build_multiscale_patch_index_map -/

/-- A node of the multiscale patch index tree.  The Python object keeps a
live reference to its parent; a node is modelled by its integer index
together with the chain of ancestor indices, immediate parent first, so
that following the Python parent references corresponds exactly to walking
this list.  The children list of the Python node is not needed by any
claim and is left implicit in the recursion structure. -/
structure MTreeNode where
  index : ℕ
  parents : List ℕ
deriving DecidableEq, Repr

/-- The four children allocated by one step of
_build_multiscale_patch_index_map: Python
  subnodes = [node.add_child(MultiscaleTreeNode(ind+i, node)) for i in range(4)]. -/
def mkSubnodes (ind : ℕ) (node : MTreeNode) : List MTreeNode :=
  (List.range 4).map (fun i => { index := ind + i, parents := node.index :: node.parents })

/-- Fuel-indexed embedding of _build_multiscale_patch_index_map.
The Python function recurses with depth-1 and stops only when depth == 1,
so it need not terminate; fuel models the call stack and a result of none
at every fuel models the resulting RecursionError.  The returned pair is
(final index counter, leaves appended by this call), mirroring the shared
mutable leaves list by concatenation in recursion order. -/
def buildAux : ℕ → ℤ → ℕ → MTreeNode → Option (ℕ × List MTreeNode)
  | 0, _, _, _ => none
  | fuel+1, depth, ind, node =>
    let subnodes := mkSubnodes ind node
    let ind2 := ind + 4
    if depth = 1 then
      some (ind2, subnodes)
    else
      subnodes.foldlM
        (fun acc n =>
          (buildAux fuel (depth - 1) acc.1 n).map (fun r => (r.1, acc.2 ++ r.2)))
        (ind2, ([] : List MTreeNode))

/-- Embedding of build_multiscale_patch_index_map.  The outer Option is
termination (none = the recursion exhausts any call stack); the inner
Option mirrors the Python return value: none when depth < 0 (bare
"return", i.e. Python None), otherwise the collected leaves list. -/
def build_multiscale_patch_index_map (fuel : ℕ) (depth : ℤ) :
    Option (Option (List MTreeNode)) :=
  if depth < 0 then some none
  else
    match buildAux fuel (depth - 1) 1 { index := 0, parents := [] } with
    | none => none
    | some r => some (some r.2)

/-- The total function that _build_multiscale_patch_index_map computes on
the terminating part of its domain: buildExact m corresponds to the helper
called with depth = m + 1 (any depth at most 0 diverges). -/
def buildExact : ℕ → ℕ → MTreeNode → ℕ × List MTreeNode
  | 0, ind, node => (ind + 4, mkSubnodes ind node)
  | m+1, ind, node =>
    (mkSubnodes ind node).foldl
      (fun acc n =>
        let r := buildExact m acc.1 n
        (r.1, acc.2 ++ r.2))
      (ind + 4, ([] : List MTreeNode))

/-! ## Dataset model: images, slicing, get_square_image and the HQ pyramid -/

/-- A numpy image: height, width and a pixel function.  The channel axis is
untouched by every modelled operation (all slices are full-range in it)
and is omitted. -/
structure Img where
  h : ℕ
  w : ℕ
  px : ℕ → ℕ → ℕ

/-- Normalisation of one Python slice bound: negative indices count from
the end, then the bound is clamped into [0, len]. -/
def pyIdx (i : ℤ) (len : ℕ) : ℕ :=
  (min (if i < 0 then i + len else i) (len : ℤ)).toNat

/-- Python/numpy 2-d slice image[r0:r1, c0:c1] (channels untouched). -/
def pySlice2 (image : Img) (r0 r1 c0 c1 : ℤ) : Img :=
  { h := pyIdx r1 image.h - pyIdx r0 image.h
    w := pyIdx c1 image.w - pyIdx c0 image.w
    px := fun i j => image.px (i + pyIdx r0 image.h) (j + pyIdx c0 image.w) }

/-- Python int(): truncation toward zero. -/
def pyInt (q : ℚ) : ℤ :=
  if q < 0 then ⌈q⌉ else ⌊q⌋

/-- cv2.resize of an image to a (side, side) square.  The INTER_AREA pixel
arithmetic is a numeric kernel outside this structural specification; the
output shape is modelled exactly and the content by coordinate
subsampling, which no claim depends on. -/
def resizeImg (side : ℕ) (image : Img) : Img :=
  { h := side
    w := side
    px := fun i j => image.px (i * image.h / side) (j * image.w / side) }

/-- MultiScaleDataset.get_square_image.  draw is the np.random.normal
sample (a float, hence a rational); the function clamps it to [-1, 1] and
crops the longer dimension, exactly as the source lines 26-40. -/
def get_square_image (draw : ℚ) (image : Img) : Img :=
  if image.h = image.w then image
  else
    let offset : ℚ := max (min draw 1) (-1)
    if image.h > image.w then
      let diff := image.h - image.w
      let center := diff / 2
      let top := pyInt ((center : ℚ) + offset * ((center : ℚ) - 2))
      pySlice2 image top (top + image.w) 0 image.w
    else
      let diff := image.w - image.h
      let center := diff / 2
      let left := pyInt ((center : ℚ) + offset * ((center : ℚ) - 2))
      pySlice2 image 0 image.h left (left + image.h)

/-- MultiScaleDataset.recursively_extract_patches.  The Python method
mutates result_list in place; the embedding threads the list through the
four recursive calls in source order (the for loop over the four
quadrants, unrolled). -/
def recursively_extract_patches (num_scales hq_size_cap tile_size : ℕ)
    (input_img : Img) (result_list : List Img) (depth : ℕ) : List Img :=
  if _h : num_scales ≤ depth then result_list
  else
    let patch_size : ℤ := (hq_size_cap / 2 ^ depth : ℕ)
    let p1 := pySlice2 input_img 0 patch_size 0 patch_size
    let p2 := pySlice2 input_img 0 patch_size patch_size input_img.w
    let p3 := pySlice2 input_img patch_size input_img.h 0 patch_size
    let p4 := pySlice2 input_img patch_size input_img.h patch_size input_img.w
    let acc := result_list ++
      [resizeImg tile_size p1, resizeImg tile_size p2,
       resizeImg tile_size p3, resizeImg tile_size p4]
    let acc := recursively_extract_patches num_scales hq_size_cap tile_size p1 acc (depth + 1)
    let acc := recursively_extract_patches num_scales hq_size_cap tile_size p2 acc (depth + 1)
    let acc := recursively_extract_patches num_scales hq_size_cap tile_size p3 acc (depth + 1)
    recursively_extract_patches num_scales hq_size_cap tile_size p4 acc (depth + 1)
termination_by num_scales - depth
decreasing_by all_goals omega

/-- The HQ patch pyramid built by MultiScaleDataset.getitem lines 62-64:
resize the square image to hq_size_cap, seed the list with the full image
resized to tile_size, then recursively extract patches starting at
depth 1. -/
def getitem_patches_hq (num_scales hq_size_cap tile_size : ℕ) (image : Img) : List Img :=
  let img_full := resizeImg hq_size_cap image
  recursively_extract_patches num_scales hq_size_cap tile_size img_full
    [resizeImg tile_size img_full] 1

/-- Number of list entries appended by recursively_extract_patches when
num_scales - depth = k (proof-side closed form of the recursion). -/
def extractAddedCount : ℕ → ℕ
  | 0 => 0
  | k+1 => 4 + 4 * extractAddedCount k

/-- MultiScaleDataset.getitem line 57: the source path is selected at
index mod len(paths_hq). -/
def getitem_path {α : Type} (paths_hq : List α) (index : ℕ) : Option α :=
  paths_hq.get? (index % paths_hq.length)

/-- MultiScaleDataset.len line 76. -/
def dataset_len {α : Type} (paths_hq : List α) : ℕ :=
  paths_hq.length

/-! ## Network model: DiffusionVocoderWithRefTruncatedTop construction -/

/-- Running state of the down-path construction loop of
DiffusionVocoderWithRefTruncatedTop.init (source lines 139-200): the
channel counter ch, the downsampling factor ds, the skip-channel stack
input_block_chans, and one tag per module appended to self.input_blocks
(true iff the module is a DiscreteSpectrogramConditioningBlock).
Attention blocks live inside the same TimestepEmbedSequential as their
res block and so do not contribute separate modules, stack pushes, or
channel changes. -/
structure DownState where
  ch : ℤ
  ds : ℕ
  input_block_chans : List ℤ
  input_blocks_spec : List Bool
deriving DecidableEq, Repr

/-- The inner "for _ in range(num_blocks)" loop of the down path: each
iteration appends one res-block module, sets ch = int(mult *
model_channels) and pushes ch onto input_block_chans. -/
def downResBlocks (model_channels : ℤ) (mult : ℚ) : ℕ → DownState → DownState
  | 0, st => st
  | n+1, st =>
    let ch := pyInt (mult * (model_channels : ℚ))
    downResBlocks model_channels mult n
      { st with
          ch := ch
          input_block_chans := st.input_block_chans ++ [ch]
          input_blocks_spec := st.input_blocks_spec ++ [false] }

/-- One iteration of the down-path level loop: optional spectrogram
conditioning block (doubles ch, pushes nothing on input_block_chans),
num_blocks res blocks, then, on every non-final level, a downsample
module that pushes ch and doubles ds. -/
def downLevel (model_channels : ℤ) (num_levels : ℕ)
    (spectrogram_conditioning_resolutions : List ℕ)
    (st : DownState) (level : ℕ) (mult : ℚ) (num_blocks : ℕ) : DownState :=
  let st :=
    if st.ds ∈ spectrogram_conditioning_resolutions then
      { st with ch := st.ch * 2, input_blocks_spec := st.input_blocks_spec ++ [true] }
    else st
  let st := downResBlocks model_channels mult num_blocks st
  if level ≠ num_levels - 1 then
    { st with
        input_block_chans := st.input_block_chans ++ [st.ch]
        input_blocks_spec := st.input_blocks_spec ++ [false]
        ds := st.ds * 2 }
  else st

/-- The full down-path loop, folded over
enumerate(zip(channel_mult, num_res_blocks)). -/
def downPath (model_channels : ℤ) (num_levels : ℕ)
    (spectrogram_conditioning_resolutions : List ℕ)
    (levels : List (ℕ × ℚ × ℕ)) (st : DownState) : DownState :=
  levels.foldl
    (fun st x =>
      downLevel model_channels num_levels spectrogram_conditioning_resolutions
        st x.1 x.2.1 x.2.2)
    st

/-- State before the down-path loop (source lines 132-143): input_blocks
holds one initial conv module and input_block_chans holds model_channels. -/
def initDownState (model_channels : ℤ) : DownState :=
  { ch := model_channels
    ds := 1
    input_block_chans := [model_channels]
    input_blocks_spec := [false] }

/-- Running state of the up-path (output_blocks) construction loop,
source lines 228-271. -/
structure UpState where
  ch : ℤ
  ds : ℕ
  input_block_chans : List ℤ
  output_blocks_count : ℕ
deriving DecidableEq, Repr

/-- Python list.pop(): removes and returns the last element; none models
the IndexError raised on an empty list. -/
def popLast (l : List ℤ) : Option (ℤ × List ℤ) :=
  match l.getLast? with
  | none => none
  | some x => some (x, l.dropLast)

/-- The inner "for i in range(num_blocks + 1)" loop of the up path: each
iteration pops ich from input_block_chans, sets ch = int(model_channels *
mult), appends one output module, and on i == num_blocks of a
non-outermost level halves ds.  The countdown argument is the number of
remaining iterations, so i = num_blocks - rem. -/
def upResBlocks (model_channels : ℤ) (mult : ℚ) (level num_blocks : ℕ) :
    ℕ → UpState → Option UpState
  | 0, st => some st
  | rem+1, st =>
    match popLast st.input_block_chans with
    | none => none
    | some (_ich, rest) =>
      let ch := pyInt ((model_channels : ℚ) * mult)
      let i := num_blocks - rem
      let st := { st with
          ch := ch
          input_block_chans := rest
          output_blocks_count := st.output_blocks_count + 1 }
      let st := if level ≠ 0 ∧ i = num_blocks then { st with ds := st.ds / 2 } else st
      upResBlocks model_channels mult level num_blocks rem st

/-- The full up-path loop, folded over
list(enumerate(zip(channel_mult, num_res_blocks)))[::-1]. -/
def upPath (model_channels : ℤ) (levels_rev : List (ℕ × ℚ × ℕ)) (st : UpState) :
    Option UpState :=
  levels_rev.foldlM
    (fun st x => upResBlocks model_channels x.2.1 x.1 x.2.2 (x.2.2 + 1) st)
    st

/-- Both construction loops in sequence, as run by init: the down path
from the initial state, then the up path on the reversed enumerated
levels, starting from the down path's ch, ds and input_block_chans (the
middle block touches none of them). -/
def build_unet_paths (model_channels : ℤ)
    (spectrogram_conditioning_resolutions : List ℕ)
    (channel_mult : List ℚ) (num_res_blocks : List ℕ) :
    DownState × Option UpState :=
  let levels := (channel_mult.zip num_res_blocks).enum
  let down := downPath model_channels channel_mult.length
    spectrogram_conditioning_resolutions levels (initDownState model_channels)
  let up := upPath model_channels levels.reverse
    { ch := down.ch
      ds := down.ds
      input_block_chans := down.input_block_chans
      output_blocks_count := 0 }
  (down, up)

/-- Trainability flags of one parameter: requires_grad together with
presence of the DO_NOT_TRAIN attribute set by the freezing pass. -/
structure PParam where
  requires_grad : Bool
  do_not_train : Bool
deriving DecidableEq, Repr

/-- A parameter before the freezing pass: requires_grad defaults to true
and no DO_NOT_TRAIN attribute exists. -/
def defaultPParam : PParam :=
  { requires_grad := true, do_not_train := false }

/-- Source lines 314-321: when only_train_dvae_connection_layers is set,
first every parameter of the network gets DO_NOT_TRAIN = True and
requires_grad = False, then every parameter of the collected spectrogram
blocks gets the attribute deleted and requires_grad = True.  Each
parameter is tagged with whether it belongs to a
DiscreteSpectrogramConditioningBlock. -/
def freeze_params (only_train_dvae_connection_layers : Bool)
    (params : List (Bool × PParam)) : List (Bool × PParam) :=
  if only_train_dvae_connection_layers then
    let params := params.map
      (fun x => (x.1, { requires_grad := false, do_not_train := true : PParam }))
    params.map
      (fun x =>
        if x.1 then (x.1, { requires_grad := true, do_not_train := false : PParam })
        else x)
  else params

/-- One tag per module of the constructed network, in construction order,
true iff the module is a DiscreteSpectrogramConditioningBlock (those are
inserted only in the down path).  top_inp_blocks and top_out_blocks use
the leaked Python loop variable num_blocks; the loop that binds it last
is the reversed up-path loop, whose final iteration is level 0, so it
holds the num_res_blocks entry of the first zip(channel_mult,
num_res_blocks) element (on an empty zip the Python line would raise
NameError; the model uses 0 modules there). -/
def module_spec_tags (conditioning_inputs_provided : Bool) (model_channels : ℤ)
    (spectrogram_conditioning_resolutions : List ℕ)
    (channel_mult : List ℚ) (num_res_blocks : List ℕ) : List Bool :=
  let paths := build_unet_paths model_channels
    spectrogram_conditioning_resolutions channel_mult num_res_blocks
  let upCount := match paths.2 with
    | some u => u.output_blocks_count
    | none => 0
  let leaked_num_blocks := ((channel_mult.zip num_res_blocks).headD ((0 : ℚ), (0 : ℕ))).2
  [false]                                                       -- time_embed
  ++ (if conditioning_inputs_provided then [false] else [])     -- contextual_embedder
  ++ [false]                                                    -- cheater_input_block
  ++ paths.1.input_blocks_spec                                  -- input_blocks
  ++ [false]                                                    -- middle_block
  ++ List.replicate upCount false                               -- output_blocks
  ++ [false]                                                    -- top_inp_raw
  ++ List.replicate leaked_num_blocks false                     -- top_inp_blocks
  ++ [false]                                                    -- top_out_upsample
  ++ List.replicate leaked_num_blocks false                     -- top_out_blocks
  ++ [false]                                                    -- top_out_final

/-- The construction-time state of the model that the
only_train_dvae_connection_layers flag could touch: the module structure
and the per-parameter flags.  Each module contributes one representative
parameter record; the Python freezing loops set the flags uniformly over
all parameters of a module, so per-module granularity is faithful. -/
structure NetModel where
  conditioning_enabled : Bool
  spec_tags : List Bool
  params : List (Bool × PParam)
deriving DecidableEq, Repr

/-- DiffusionVocoderWithRefTruncatedTop.init restricted to the state the
claims are about: module tags, conditioning flag, and parameter flags
after the optional freezing pass. -/
def constructNet (only_train_dvae_connection_layers : Bool)
    (conditioning_inputs_provided : Bool) (model_channels : ℤ)
    (spectrogram_conditioning_resolutions : List ℕ)
    (channel_mult : List ℚ) (num_res_blocks : List ℕ) : NetModel :=
  let tags := module_spec_tags conditioning_inputs_provided model_channels
    spectrogram_conditioning_resolutions channel_mult num_res_blocks
  { conditioning_enabled := conditioning_inputs_provided
    spec_tags := tags
    params := freeze_params only_train_dvae_connection_layers
      (tags.map (fun t => (t, defaultPParam))) }

/-- Checks the frozen-network flag discipline for one tagged parameter:
spectrogram-block parameters keep requires_grad and carry no DO_NOT_TRAIN
attribute; every other parameter is frozen and marked. -/
def frozenFlagsOk (x : Bool × PParam) : Bool :=
  if x.1 then x.2.requires_grad && !x.2.do_not_train
  else !x.2.requires_grad && x.2.do_not_train

/-! ## Network model: forward entry checks and the truncated-top bounds -/

/-- The rand_start/rand_stop pair computed by forward. -/
structure FwdBounds where
  rand_start : ℕ
  rand_stop : ℕ
deriving DecidableEq, Repr

/-- The entry asserts (source lines 332-334) and the rand_start/rand_stop
computation (lines 344-349, 378) of
DiffusionVocoderWithRefTruncatedTop.forward.  input_len is x.shape[-1];
rand_draw is the random.randint(0, input_len // 2) sample, passed in as
the ambient randomness; the tensor pipeline between the checks and the
return is a numeric kernel outside this structural specification, so the
embedding returns the bounds that forward returns alongside its output
tensor.  An error value models a failed assert. -/
def forward (conditioning_enabled training : Bool) (input_len : ℕ)
    (conditioning_input_provided : Bool) (rand_draw : ℕ) :
    Except String FwdBounds :=
  if input_len % 4096 ≠ 0 then
    Except.error "assert failed: x.shape[-1] must be divisible by 4096"
  else if conditioning_enabled && !conditioning_input_provided then
    Except.error "assert failed: conditioning_input is required"
  else if training then
    let rand_start := rand_draw / 2 * 2
    Except.ok { rand_start := rand_start, rand_stop := rand_start + input_len / 2 }
  else
    Except.ok { rand_start := 0, rand_stop := input_len }

/-- Whether an Except value is an error (a raised assert). -/
def isErr {ε α : Type} : Except ε α → Bool
  | Except.error _ => true
  | Except.ok _ => false

/-! ## Lemmas: tree construction -/

theorem mkSubnodes_eq (ind : ℕ) (node : MTreeNode) :
    mkSubnodes ind node =
      [{ index := ind, parents := node.index :: node.parents },
       { index := ind + 1, parents := node.index :: node.parents },
       { index := ind + 2, parents := node.index :: node.parents },
       { index := ind + 3, parents := node.index :: node.parents }] := rfl

/-- With depth at most 0 the helper recursion never reaches its base case:
no amount of fuel suffices (the Python call diverges into a
RecursionError). -/
theorem buildAux_none (fuel : ℕ) :
    ∀ (depth : ℤ), depth ≤ 0 → ∀ (ind : ℕ) (node : MTreeNode),
      buildAux fuel depth ind node = none := by
  induction fuel with
  | zero => intro d _ ind node; rfl
  | succ f ih =>
    intro d hd ind node
    simp only [buildAux]
    rw [if_neg (by omega), mkSubnodes_eq]
    simp [List.foldlM, ih (d - 1) (by omega)]

theorem foldlM_eq_foldl {α β : Type} (g : β → α → Option β) (gp : β → α → β)
    (l : List α) (H : ∀ b a, a ∈ l → g b a = some (gp b a)) :
    ∀ init, l.foldlM g init = some (l.foldl gp init) := by
  induction l with
  | nil => intro init; rfl
  | cons a l ih =>
    intro init
    rw [List.foldlM_cons, H init a (by simp)]
    simpa using ih (fun b x hx => H b x (by simp [hx])) (gp init a)

/-- On the terminating part of its domain (helper depth m + 1 with at
least m + 1 stack frames available) the fuel-indexed helper computes the
total function buildExact. -/
theorem buildAux_eq_buildExact :
    ∀ (m fuel : ℕ), m < fuel → ∀ (ind : ℕ) (node : MTreeNode),
      buildAux fuel (((m : ℕ) : ℤ) + 1) ind node = some (buildExact m ind node) := by
  intro m
  induction m with
  | zero =>
    intro fuel hf ind node
    match fuel, hf with
    | f + 1, _ =>
      simp only [buildAux]
      rw [if_pos (by norm_num)]
      rfl
  | succ m ih =>
    intro fuel hf ind node
    match fuel, hf with
    | f + 1, hf =>
      simp only [buildAux]
      rw [if_neg (by push_cast; omega)]
      have hdep : (((m + 1 : ℕ) : ℤ) + 1 - 1) = ((m : ℕ) : ℤ) + 1 := by push_cast; ring
      rw [foldlM_eq_foldl
        (fun acc n => (buildAux f (((m + 1 : ℕ) : ℤ) + 1 - 1) acc.1 n).map
          (fun r => (r.1, acc.2 ++ r.2)))
        (fun acc n => ((buildExact m acc.1 n).1, acc.2 ++ (buildExact m acc.1 n).2))
        (mkSubnodes ind node)
        (fun b a _ => by simp [hdep, ih f (by omega)])]
      rfl

theorem buildExact_leaves_length :
    ∀ (m ind : ℕ) (node : MTreeNode),
      (buildExact m ind node).2.length = 4 ^ (m + 1) := by
  intro m
  induction m with
  | zero => intro ind node; rfl
  | succ m ih =>
    intro ind node
    simp only [buildExact, mkSubnodes_eq, List.foldl]
    simp only [List.length_append, List.length_nil, ih]
    rw [pow_succ]
    omega

theorem buildExact_leaves_chain :
    ∀ (m ind : ℕ) (node : MTreeNode), ∀ leaf ∈ (buildExact m ind node).2,
      leaf.parents.length = node.parents.length + m + 1 ∧
        leaf.parents.getLast? = (node.index :: node.parents).getLast? := by
  intro m
  induction m with
  | zero =>
    intro ind node leaf hmem
    simp only [buildExact, mkSubnodes_eq, List.mem_cons, List.not_mem_nil, or_false] at hmem
    rcases hmem with h | h | h | h <;> subst h <;>
      exact ⟨by simp, rfl⟩
  | succ m ih =>
    intro ind node leaf hmem
    simp only [buildExact, mkSubnodes_eq, List.foldl, List.nil_append,
      List.mem_append] at hmem
    rcases hmem with ((h | h) | h) | h <;>
    · obtain ⟨h1, h2⟩ := ih _ _ _ h
      refine ⟨?_, ?_⟩
      · simp only [List.length_cons] at h1; omega
      · rw [h2]; rfl

/-! ## Claim C1 -/

/-- C1, as stated, is false: at depth = 2 the function terminates but
returns 4 leaves, not 4^2 = 16 (the helper is seeded with depth - 1, so
its four immediate children of the root are already the leaf level). -/
theorem C1_counterexample :
    ¬ (∀ depth : ℤ, 1 ≤ depth →
        ∃ (fuel : ℕ) (L : List MTreeNode),
          build_multiscale_patch_index_map fuel depth = some (some L) ∧
          L.length = 4 ^ depth.toNat ∧
          ∀ leaf ∈ L, leaf.parents.length = depth.toNat ∧
            leaf.parents.getLast? = some 0) := by
  intro hclaim
  obtain ⟨fuel, L, hb, hlen, -⟩ := hclaim 2 (by norm_num)
  unfold build_multiscale_patch_index_map at hb
  rw [if_neg (by norm_num)] at hb
  cases fuel with
  | zero => simp [buildAux] at hb
  | succ f =>
    have heq := buildAux_eq_buildExact 0 (f + 1) (by omega) 1 { index := 0, parents := [] }
    simp only [Nat.cast_zero, zero_add] at heq
    rw [show (2 : ℤ) - 1 = 1 by norm_num, heq] at hb
    simp only [Option.some.injEq] at hb
    have h4 := buildExact_leaves_length 0 1 { index := 0, parents := [] }
    rw [hb] at h4
    rw [show Int.toNat 2 = 2 by rfl] at hlen
    norm_num at hlen h4
    omega

/-- C1 amended: for every depth at least 2,
build_multiscale_patch_index_map(depth) terminates (fuel depth - 1, one
frame per level, suffices) and returns exactly 4^(depth-1) leaf nodes,
and every returned leaf reaches the root node of index 0 after exactly
depth - 1 parent steps.  (At depth = 1 — and depth = 0 — the recursion
does not terminate.) -/
theorem C1_tree_leaves (depth : ℤ) (hd : 2 ≤ depth) :
    ∃ L : List MTreeNode,
      build_multiscale_patch_index_map (depth - 1).toNat depth = some (some L) ∧
      L.length = 4 ^ (depth - 1).toNat ∧
      ∀ leaf ∈ L, leaf.parents.length = (depth - 1).toNat ∧
        leaf.parents.getLast? = some 0 := by
  obtain ⟨m, hm⟩ : ∃ m : ℕ, depth - 2 = (m : ℤ) := ⟨(depth - 2).toNat, by omega⟩
  have hd1 : depth - 1 = ((m + 1 : ℕ) : ℤ) := by push_cast; omega
  have hfuel : (depth - 1).toNat = m + 1 := by omega
  refine ⟨(buildExact m 1 { index := 0, parents := [] }).2, ?_, ?_, ?_⟩
  · unfold build_multiscale_patch_index_map
    rw [if_neg (by omega), hfuel, hd1]
    have := buildAux_eq_buildExact m (m + 1) (by omega) 1 { index := 0, parents := [] }
    push_cast at this ⊢
    rw [this]
  · rw [hfuel, buildExact_leaves_length]
  · intro leaf hmem
    have h := buildExact_leaves_chain m 1 _ leaf hmem
    rw [hfuel]
    simpa using h

theorem C1_tree_leaves_witness :
    (2 : ℤ) ≤ 2 ∧
      ∃ L : List MTreeNode,
        build_multiscale_patch_index_map ((2 : ℤ) - 1).toNat 2 = some (some L) ∧
        L.length = 4 ^ ((2 : ℤ) - 1).toNat ∧
        ∀ leaf ∈ L, leaf.parents.length = ((2 : ℤ) - 1).toNat ∧
          leaf.parents.getLast? = some 0 :=
  ⟨by norm_num, C1_tree_leaves 2 (by norm_num)⟩

/-! ## Claim C2 -/

/-- C2 names a genuine bug, refuting the claim at its named input depth
= 0: there the guard (depth < 0) does not fire, the helper is seeded
with depth = -1, and since it only stops at depth == 1 and decrements
every call, no call-stack fuel suffices — the Python call raises
RecursionError instead of terminating with an empty or root-only
result (first conjunct: fuel exhaustion at every fuel).  For every
strictly negative depth — every integer of the form -1 - n — the guard
does fire and the function returns gracefully at once (Python None,
the inner none), independent of fuel (second conjunct), confirming the
graceful degradation the claim asks for on the rest of depth <= 0 and
showing the depth = 0 crash is a one-off gap in the guard. -/
theorem C2_depth_zero_diverges :
    (∀ fuel : ℕ, build_multiscale_patch_index_map fuel 0 = none) ∧
    (∀ (n fuel : ℕ),
      build_multiscale_patch_index_map fuel (-1 - (n : ℤ)) = some none) := by
  constructor
  · intro fuel
    unfold build_multiscale_patch_index_map
    rw [if_neg (by norm_num), buildAux_none fuel ((0 : ℤ) - 1) (by norm_num)]
  · intro n fuel
    unfold build_multiscale_patch_index_map
    rw [if_pos (by omega)]

/-! ## Lemmas: patch extraction -/

theorem recursively_extract_patches_stop (num_scales hq_size_cap tile_size : ℕ)
    (img : Img) (l : List Img) (depth : ℕ) (hd : num_scales ≤ depth) :
    recursively_extract_patches num_scales hq_size_cap tile_size img l depth = l := by
  unfold recursively_extract_patches
  rw [dif_pos hd]

theorem recursively_extract_patches_go (num_scales hq_size_cap tile_size : ℕ)
    (img : Img) (l : List Img) (depth : ℕ) (hd : depth < num_scales) :
    recursively_extract_patches num_scales hq_size_cap tile_size img l depth =
      recursively_extract_patches num_scales hq_size_cap tile_size
        (pySlice2 img ((hq_size_cap / 2 ^ depth : ℕ) : ℤ) img.h ((hq_size_cap / 2 ^ depth : ℕ) : ℤ) img.w)
        (recursively_extract_patches num_scales hq_size_cap tile_size
          (pySlice2 img ((hq_size_cap / 2 ^ depth : ℕ) : ℤ) img.h 0 ((hq_size_cap / 2 ^ depth : ℕ) : ℤ))
          (recursively_extract_patches num_scales hq_size_cap tile_size
            (pySlice2 img 0 ((hq_size_cap / 2 ^ depth : ℕ) : ℤ) ((hq_size_cap / 2 ^ depth : ℕ) : ℤ) img.w)
            (recursively_extract_patches num_scales hq_size_cap tile_size
              (pySlice2 img 0 ((hq_size_cap / 2 ^ depth : ℕ) : ℤ) 0 ((hq_size_cap / 2 ^ depth : ℕ) : ℤ))
              (l ++
                [resizeImg tile_size (pySlice2 img 0 ((hq_size_cap / 2 ^ depth : ℕ) : ℤ) 0 ((hq_size_cap / 2 ^ depth : ℕ) : ℤ)),
                 resizeImg tile_size (pySlice2 img 0 ((hq_size_cap / 2 ^ depth : ℕ) : ℤ) ((hq_size_cap / 2 ^ depth : ℕ) : ℤ) img.w),
                 resizeImg tile_size (pySlice2 img ((hq_size_cap / 2 ^ depth : ℕ) : ℤ) img.h 0 ((hq_size_cap / 2 ^ depth : ℕ) : ℤ)),
                 resizeImg tile_size (pySlice2 img ((hq_size_cap / 2 ^ depth : ℕ) : ℤ) img.h ((hq_size_cap / 2 ^ depth : ℕ) : ℤ) img.w)])
              (depth + 1))
            (depth + 1))
          (depth + 1))
        (depth + 1) := by
  conv_lhs => unfold recursively_extract_patches
  rw [dif_neg (by omega)]

theorem recursively_extract_patches_length (num_scales hq_size_cap tile_size : ℕ) :
    ∀ (k depth : ℕ), num_scales - depth = k → ∀ (img : Img) (l : List Img),
      (recursively_extract_patches num_scales hq_size_cap tile_size img l depth).length
        = l.length + extractAddedCount k := by
  intro k
  induction k with
  | zero =>
    intro depth hd img l
    rw [recursively_extract_patches_stop _ _ _ _ _ _ (by omega)]
    simp [extractAddedCount]
  | succ k ih =>
    intro depth hd img l
    rw [recursively_extract_patches_go _ _ _ _ _ _ (by omega)]
    rw [ih (depth + 1) (by omega), ih (depth + 1) (by omega), ih (depth + 1) (by omega),
        ih (depth + 1) (by omega)]
    simp only [List.length_append, List.length_cons, List.length_nil, extractAddedCount]
    omega

theorem recursively_extract_patches_append (num_scales hq_size_cap tile_size : ℕ) :
    ∀ (k depth : ℕ), num_scales - depth = k → ∀ (img : Img) (l l2 : List Img),
      recursively_extract_patches num_scales hq_size_cap tile_size img (l ++ l2) depth
        = l ++ recursively_extract_patches num_scales hq_size_cap tile_size img l2 depth := by
  intro k
  induction k with
  | zero =>
    intro depth hd img l l2
    rw [recursively_extract_patches_stop _ _ _ _ _ _ (by omega),
        recursively_extract_patches_stop _ _ _ _ _ _ (by omega)]
  | succ k ih =>
    intro depth hd img l l2
    rw [recursively_extract_patches_go _ _ _ _ _ _ (by omega),
        recursively_extract_patches_go _ _ _ _ l2 _ (by omega)]
    rw [List.append_assoc]
    rw [ih (depth + 1) (by omega), ih (depth + 1) (by omega), ih (depth + 1) (by omega),
        ih (depth + 1) (by omega)]

theorem extractAddedCount_geom (k : ℕ) :
    1 + extractAddedCount k = ∑ i ∈ Finset.range (k + 1), 4 ^ i := by
  induction k with
  | zero => simp [extractAddedCount]
  | succ k ih =>
    rw [Finset.sum_range_succ']
    have : ∀ i : ℕ, (4 : ℕ) ^ (i + 1) = 4 ^ i * 4 := fun i => pow_succ 4 i
    calc 1 + extractAddedCount (k + 1)
        = (1 + extractAddedCount k) * 4 + 1 := by
          simp only [extractAddedCount]; ring
      _ = (∑ i ∈ Finset.range (k + 1), 4 ^ i) * 4 + 1 := by rw [ih]
      _ = (∑ i ∈ Finset.range (k + 1), 4 ^ (i + 1)) + 1 := by
          rw [Finset.sum_mul]
          congr 1
      _ = (∑ i ∈ Finset.range (k + 1), 4 ^ (i + 1)) + 4 ^ 0 := by norm_num

theorem three_mul_geom_sum (n : ℕ) :
    3 * (∑ i ∈ Finset.range n, 4 ^ i) + 1 = 4 ^ n := by
  induction n with
  | zero => simp
  | succ n ih =>
    rw [Finset.sum_range_succ, pow_succ]
    omega

/-! ## Claim C4 (proved first: C3's counterexample contradicts its numbers) -/

/-- C4 confirmed: for every num_scales at least 1 the HQ pyramid of
getitem has length 1 + 4 + ... + 4^(num_scales-1) = (4^num_scales - 1)/3,
and slot 0 holds the full-resolution tile (the capped full image resized
to tile_size). -/
theorem C4_pyramid_length (num_scales : ℕ) (hns : 1 ≤ num_scales)
    (hq_size_cap tile_size : ℕ) (image : Img) :
    (getitem_patches_hq num_scales hq_size_cap tile_size image).length
        = ∑ i ∈ Finset.range num_scales, 4 ^ i ∧
      (getitem_patches_hq num_scales hq_size_cap tile_size image).length
        = (4 ^ num_scales - 1) / 3 ∧
      (getitem_patches_hq num_scales hq_size_cap tile_size image).head?
        = some (resizeImg tile_size (resizeImg hq_size_cap image)) := by
  have hlen : (getitem_patches_hq num_scales hq_size_cap tile_size image).length
      = ∑ i ∈ Finset.range num_scales, 4 ^ i := by
    unfold getitem_patches_hq
    rw [recursively_extract_patches_length _ _ _ (num_scales - 1) 1 (by omega)]
    have hg := extractAddedCount_geom (num_scales - 1)
    rw [show num_scales - 1 + 1 = num_scales from by omega] at hg
    simp only [List.length_cons, List.length_nil]
    omega
  refine ⟨hlen, ?_, ?_⟩
  · rw [hlen]
    have h3 := three_mul_geom_sum num_scales
    omega
  · show (recursively_extract_patches num_scales hq_size_cap tile_size
        (resizeImg hq_size_cap image)
        [resizeImg tile_size (resizeImg hq_size_cap image)] 1).head?
      = some (resizeImg tile_size (resizeImg hq_size_cap image))
    rw [show [resizeImg tile_size (resizeImg hq_size_cap image)]
        = [resizeImg tile_size (resizeImg hq_size_cap image)] ++ ([] : List Img) from by simp]
    rw [recursively_extract_patches_append _ _ _ (num_scales - 1) 1 (by omega)]
    simp

theorem C4_pyramid_length_witness :
    1 ≤ 1 ∧
      ((getitem_patches_hq 1 8 4 (Img.mk 8 8 (fun _ _ => 0))).length
          = ∑ i ∈ Finset.range 1, 4 ^ i ∧
        (getitem_patches_hq 1 8 4 (Img.mk 8 8 (fun _ _ => 0))).length
          = (4 ^ 1 - 1) / 3 ∧
        (getitem_patches_hq 1 8 4 (Img.mk 8 8 (fun _ _ => 0))).head?
          = some (resizeImg 4 (resizeImg 8 (Img.mk 8 8 (fun _ _ => 0))))) :=
  ⟨le_refl 1, C4_pyramid_length 1 (le_refl 1) 8 4 (Img.mk 8 8 (fun _ _ => 0))⟩

/-! ## Claim C3 -/

/-- C3, as stated, is false: at num_scales = 1 the recursion stops
immediately (depth 1 is not below num_scales), so the pyramid holds only
the seeded full-image tile — length 1, not 5. -/
theorem C3_counterexample :
    (getitem_patches_hq 1 8 4 (Img.mk 8 8 (fun _ _ => 0))).length ≠ 5 := by
  unfold getitem_patches_hq
  rw [recursively_extract_patches_length 1 8 4 0 1 rfl]
  simp [extractAddedCount]

/-- C3 amended: the pyramid length is 1 for num_scales = 1 and 5 for
num_scales = 2 (the claim's figures 5 and 21 are the lengths for
num_scales = 2 and 3 respectively). -/
theorem C3_pyramid_lengths (image : Img) (hq_size_cap tile_size : ℕ) :
    (getitem_patches_hq 1 hq_size_cap tile_size image).length = 1 ∧
    (getitem_patches_hq 2 hq_size_cap tile_size image).length = 5 := by
  constructor
  · unfold getitem_patches_hq
    rw [recursively_extract_patches_length _ _ _ 0 1 rfl]
    simp [extractAddedCount]
  · unfold getitem_patches_hq
    rw [recursively_extract_patches_length _ _ _ 1 1 rfl]
    simp [extractAddedCount]

/-! ## Claim C5 -/

theorem ceil_neg_two : ⌈(-2 : ℚ)⌉ = -2 := by
  rw [show (-2 : ℚ) = ((-2 : ℤ) : ℚ) by norm_num, Int.ceil_intCast]

/-- C5 names a genuine bug: for an image with h = 3, w = 2 and a clamped
offset draw of 1.0 (h - w = 1, center = 0, so top = int(1 * (0 - 2)) =
-2), the Python slice image[-2:0] is empty — the result has shape 0 x 2,
not the square 2 x 2 promised by the claim and by the method's own
comment.  The crop start -2 also falls outside [0, |h-w|] = [0, 1]. -/
theorem C5_square_crop_failing_eval :
    (get_square_image 1 (Img.mk 3 2 (fun _ _ => 0))).h = 0 ∧
    (get_square_image 1 (Img.mk 3 2 (fun _ _ => 0))).w = 2 ∧
    min (Img.mk 3 2 (fun _ _ => 0)).h (Img.mk 3 2 (fun _ _ => 0)).w = 2 := by
  refine ⟨?_, ?_, rfl⟩
  · simp only [get_square_image]
    norm_num [pyInt, pySlice2, pyIdx, ceil_neg_two]
  · simp only [get_square_image]
    norm_num [pyInt, pySlice2, pyIdx, ceil_neg_two]
    rfl

/-! ## Lemmas: skip-channel stack discipline -/

theorem downResBlocks_chans_length (model_channels : ℤ) (mult : ℚ) :
    ∀ (n : ℕ) (st : DownState),
      (downResBlocks model_channels mult n st).input_block_chans.length
        = st.input_block_chans.length + n := by
  intro n
  induction n with
  | zero => intro st; rfl
  | succ n ih =>
    intro st
    simp only [downResBlocks, ih]
    simp only [List.length_append, List.length_cons, List.length_nil]
    omega

theorem downLevel_chans_length (model_channels : ℤ) (num_levels : ℕ)
    (spectrogram_conditioning_resolutions : List ℕ)
    (st : DownState) (level : ℕ) (mult : ℚ) (num_blocks : ℕ) :
    (downLevel model_channels num_levels spectrogram_conditioning_resolutions
        st level mult num_blocks).input_block_chans.length
      = st.input_block_chans.length + num_blocks
          + (if level ≠ num_levels - 1 then 1 else 0) := by
  unfold downLevel
  by_cases h1 : st.ds ∈ spectrogram_conditioning_resolutions <;>
    by_cases h2 : level ≠ num_levels - 1 <;>
      simp [h1, h2, downResBlocks_chans_length]

theorem downPath_chans_length (model_channels : ℤ) (num_levels : ℕ)
    (spectrogram_conditioning_resolutions : List ℕ) :
    ∀ (levels : List (ℕ × ℚ × ℕ)) (st : DownState),
      (downPath model_channels num_levels spectrogram_conditioning_resolutions
          levels st).input_block_chans.length
        = st.input_block_chans.length
            + (levels.map (fun x => x.2.2)).sum
            + levels.countP (fun x => x.1 != num_levels - 1) := by
  intro levels
  induction levels with
  | nil => intro st; simp [downPath]
  | cons a l ih =>
    intro st
    simp only [downPath, List.foldl_cons] at ih ⊢
    rw [ih, downLevel_chans_length]
    simp only [List.map_cons, List.sum_cons, List.countP_cons]
    by_cases h : a.1 = num_levels - 1 <;> simp [h] <;> omega

theorem upResBlocks_ok (model_channels : ℤ) (mult : ℚ) (level num_blocks : ℕ) :
    ∀ (n : ℕ) (st : UpState), n ≤ st.input_block_chans.length →
      ∃ st2, upResBlocks model_channels mult level num_blocks n st = some st2 ∧
        st2.input_block_chans.length = st.input_block_chans.length - n := by
  intro n
  induction n with
  | zero => intro st _; exact ⟨st, rfl, by omega⟩
  | succ n ih =>
    intro st hn
    have hne : st.input_block_chans ≠ [] := by
      intro hnil
      rw [hnil] at hn
      simp at hn
    cases hlast : st.input_block_chans.getLast? with
    | none => exact absurd (List.getLast?_eq_none_iff.mp hlast) hne
    | some x =>
      simp only [upResBlocks, popLast, hlast]
      set st1 : UpState :=
        { ch := pyInt ((model_channels : ℚ) * mult)
          ds := st.ds
          input_block_chans := st.input_block_chans.dropLast
          output_blocks_count := st.output_blocks_count + 1 } with hst1
      set st2 := if level ≠ 0 ∧ num_blocks - n = num_blocks
        then { st1 with ds := st1.ds / 2 } else st1 with hst2
      have hchans : st2.input_block_chans = st.input_block_chans.dropLast := by
        rw [hst2]
        split <;> rfl
      obtain ⟨stf, hf, hlen⟩ := ih st2 (by
        rw [hchans, List.length_dropLast]; omega)
      refine ⟨stf, ?_, ?_⟩
      · exact hf
      · rw [hlen, hchans, List.length_dropLast]; omega

theorem upPath_ok (model_channels : ℤ) :
    ∀ (levels : List (ℕ × ℚ × ℕ)) (st : UpState),
      (levels.map (fun x => x.2.2 + 1)).sum ≤ st.input_block_chans.length →
      ∃ st2, upPath model_channels levels st = some st2 ∧
        st2.input_block_chans.length
          = st.input_block_chans.length - (levels.map (fun x => x.2.2 + 1)).sum := by
  intro levels
  induction levels with
  | nil => intro st _; exact ⟨st, rfl, by simp⟩
  | cons a l ih =>
    intro st hle
    simp only [List.map_cons, List.sum_cons] at hle
    obtain ⟨st1, h1, hlen1⟩ :=
      upResBlocks_ok model_channels a.2.1 a.1 a.2.2 (a.2.2 + 1) st (by omega)
    obtain ⟨st2, h2, hlen2⟩ := ih st1 (by omega)
    refine ⟨st2, ?_, ?_⟩
    · simp only [upPath, List.foldlM_cons, h1, Option.bind_eq_bind, Option.some_bind]
      simpa [upPath] using h2
    · simp only [List.map_cons, List.sum_cons]
      omega

theorem sum_map_add_one {α : Type} (f : α → ℕ) (l : List α) :
    (l.map (fun x => f x + 1)).sum = (l.map f).sum + l.length := by
  induction l with
  | nil => rfl
  | cons a l ih => simp [ih]; omega

theorem countP_range_ne_last (L : ℕ) (hL : 1 ≤ L) :
    (List.range L).countP (fun i => i != L - 1) = L - 1 := by
  obtain ⟨M, rfl⟩ : ∃ M, L = M + 1 := ⟨L - 1, by omega⟩
  rw [List.range_succ, List.countP_append]
  have h1 : (List.range M).countP (fun i => i != M + 1 - 1) = M := by
    have := List.countP_eq_length (p := fun i : ℕ => i != M + 1 - 1)
      (l := List.range M)
    rw [this.mpr ?_, List.length_range]
    intro a ha
    simp only [List.mem_range] at ha
    simp only [bne_iff_ne, ne_eq]
    omega
  have h2 : List.countP (fun i => i != M + 1 - 1) [M] = 0 := by
    simp [List.countP_cons]
  omega

/-! ## Claim C6 -/

/-- C6 confirmed: for equal-length channel_mult / num_res_blocks of
length at least 1 (and any conditioning resolution set — attention blocks
never touch the stack), the down path pushes 1 + sum(num_res_blocks) +
(levels - 1) entries onto input_block_chans, the up path pops
sum(num_res_blocks) + levels entries — the same number — never popping an
empty list, and the stack is exactly empty when the output_blocks loop
completes. -/
theorem C6_skip_stack_empty (model_channels : ℤ)
    (spectrogram_conditioning_resolutions : List ℕ)
    (channel_mult : List ℚ) (num_res_blocks : List ℕ)
    (hlen : channel_mult.length = num_res_blocks.length)
    (hpos : 1 ≤ channel_mult.length) :
    (build_unet_paths model_channels spectrogram_conditioning_resolutions
        channel_mult num_res_blocks).1.input_block_chans.length
      = 1 + num_res_blocks.sum + (channel_mult.length - 1) ∧
    ∃ stf, (build_unet_paths model_channels spectrogram_conditioning_resolutions
          channel_mult num_res_blocks).2 = some stf ∧
        stf.input_block_chans = [] := by
  have hziplen : (channel_mult.zip num_res_blocks).length = channel_mult.length := by
    rw [List.length_zip channel_mult num_res_blocks, hlen, min_self]
  have hsnd : ((channel_mult.zip num_res_blocks).enum.map (fun x => x.2.2)).sum
      = num_res_blocks.sum := by
    have h1 : ((channel_mult.zip num_res_blocks).enum.map (fun x => x.2.2))
        = ((channel_mult.zip num_res_blocks).enum.map Prod.snd).map Prod.snd := by
      rw [List.map_map]; rfl
    rw [h1, List.enum_map_snd, List.map_snd_zip channel_mult num_res_blocks (le_of_eq hlen.symm)]
  have hcount : (channel_mult.zip num_res_blocks).enum.countP
      (fun x => x.1 != channel_mult.length - 1) = channel_mult.length - 1 := by
    have h1 := List.countP_map (fun i : ℕ => i != channel_mult.length - 1) Prod.fst
      (channel_mult.zip num_res_blocks).enum
    rw [List.enum_map_fst, hziplen] at h1
    have h2 : (fun x : ℕ × ℚ × ℕ => x.1 != channel_mult.length - 1)
        = ((fun i : ℕ => i != channel_mult.length - 1) ∘ Prod.fst) := rfl
    rw [h2, ← h1, countP_range_ne_last _ hpos]
  have hdown : (build_unet_paths model_channels spectrogram_conditioning_resolutions
      channel_mult num_res_blocks).1.input_block_chans.length
      = 1 + num_res_blocks.sum + (channel_mult.length - 1) := by
    simp only [build_unet_paths]
    rw [downPath_chans_length]
    simp only [initDownState, List.length_cons, List.length_nil, hsnd, hcount]
  refine ⟨hdown, ?_⟩
  have hpop : (((channel_mult.zip num_res_blocks).enum.reverse.map
      (fun x => x.2.2 + 1)).sum) = num_res_blocks.sum + channel_mult.length := by
    rw [List.map_reverse, List.sum_reverse, sum_map_add_one, hsnd, List.enum_length, hziplen]
  have hinit : (build_unet_paths model_channels spectrogram_conditioning_resolutions
      channel_mult num_res_blocks).2
      = upPath model_channels (channel_mult.zip num_res_blocks).enum.reverse
        { ch := (build_unet_paths model_channels spectrogram_conditioning_resolutions
            channel_mult num_res_blocks).1.ch
          ds := (build_unet_paths model_channels spectrogram_conditioning_resolutions
            channel_mult num_res_blocks).1.ds
          input_block_chans := (build_unet_paths model_channels
            spectrogram_conditioning_resolutions channel_mult num_res_blocks).1.input_block_chans
          output_blocks_count := 0 } := by
    simp only [build_unet_paths]
  obtain ⟨stf, hf, hflen⟩ := upPath_ok model_channels
    (channel_mult.zip num_res_blocks).enum.reverse
    { ch := (build_unet_paths model_channels spectrogram_conditioning_resolutions
        channel_mult num_res_blocks).1.ch
      ds := (build_unet_paths model_channels spectrogram_conditioning_resolutions
        channel_mult num_res_blocks).1.ds
      input_block_chans := (build_unet_paths model_channels
        spectrogram_conditioning_resolutions channel_mult num_res_blocks).1.input_block_chans
      output_blocks_count := 0 }
    (by simp only [hpop, hdown]; omega)
  refine ⟨stf, by rw [hinit]; exact hf, ?_⟩
  rw [← List.length_eq_zero]
  simp only [hpop, hdown] at hflen
  omega

theorem C6_skip_stack_empty_witness :
    (([(1 : ℚ), 2].length = [1, 1].length ∧ 1 ≤ [(1 : ℚ), 2].length) ∧
      ((build_unet_paths 32 [1] [(1 : ℚ), 2] [1, 1]).1.input_block_chans.length
          = 1 + [1, 1].sum + ([(1 : ℚ), 2].length - 1) ∧
        ∃ stf, (build_unet_paths 32 [1] [(1 : ℚ), 2] [1, 1]).2 = some stf ∧
          stf.input_block_chans = [])) :=
  ⟨⟨rfl, by norm_num⟩, C6_skip_stack_empty 32 [1] [(1 : ℚ), 2] [1, 1] rfl (by norm_num)⟩

/-! ## Claim C7 -/

/-- C7 confirmed: on any accepted input (length divisible by 4096, and a
conditioning input present whenever conditioning is enabled) forward
returns its (rand_start, rand_stop) bounds alongside the output; in
evaluation mode they are (0, N); in training mode rand_start is even,
lies in [0, N/2], and rand_stop - rand_start = N/2. -/
theorem C7_rand_bounds (conditioning_enabled training conditioning_input_provided : Bool)
    (input_len rand_draw : ℕ) (hdiv : input_len % 4096 = 0)
    (hdraw : rand_draw ≤ input_len / 2)
    (hcond : conditioning_enabled = true → conditioning_input_provided = true) :
    ∃ b, forward conditioning_enabled training input_len conditioning_input_provided rand_draw
        = Except.ok b ∧
      (training = false → b.rand_start = 0 ∧ b.rand_stop = input_len) ∧
      (training = true → b.rand_start % 2 = 0 ∧ b.rand_start ≤ input_len / 2 ∧
        b.rand_stop - b.rand_start = input_len / 2) := by
  unfold forward
  rw [if_neg (by omega)]
  have h2 : (conditioning_enabled && !conditioning_input_provided) = false := by
    cases conditioning_enabled with
    | false => rfl
    | true => rw [hcond rfl]; rfl
  rw [h2, if_neg (by simp)]
  cases training with
  | false => exact ⟨_, rfl, fun _ => ⟨rfl, rfl⟩, by simp⟩
  | true =>
    refine ⟨_, rfl, by simp, fun _ => ⟨?_, ?_, ?_⟩⟩
    · dsimp only; omega
    · dsimp only; omega
    · dsimp only; omega

theorem C7_rand_bounds_witness :
    (4096 % 4096 = 0 ∧ 1001 ≤ 4096 / 2 ∧ (true = true → true = true)) ∧
      (∃ b, forward true true 4096 true 1001 = Except.ok b ∧
        (true = false → b.rand_start = 0 ∧ b.rand_stop = 4096) ∧
        (true = true → b.rand_start % 2 = 0 ∧ b.rand_start ≤ 4096 / 2 ∧
          b.rand_stop - b.rand_start = 4096 / 2)) :=
  ⟨⟨rfl, by norm_num, fun h => h⟩,
    C7_rand_bounds true true true 4096 1001 rfl (by norm_num) (fun h => h)⟩

/-! ## Claim C8 -/

/-- C8 confirmed: forward fails at entry exactly when the input length is
not divisible by 4096 or conditioning is enabled without a conditioning
input; when both preconditions hold neither assert raises. -/
theorem C8_entry_asserts (conditioning_enabled training : Bool) (input_len : ℕ)
    (conditioning_input_provided : Bool) (rand_draw : ℕ) :
    isErr (forward conditioning_enabled training input_len
        conditioning_input_provided rand_draw) = true
      ↔ (input_len % 4096 ≠ 0 ∨
          (conditioning_enabled = true ∧ conditioning_input_provided = false)) := by
  unfold forward isErr
  by_cases h1 : input_len % 4096 ≠ 0
  · simp [h1]
  · rw [if_neg h1]
    cases conditioning_enabled <;> cases conditioning_input_provided <;>
      cases training <;> simp_all

/-! ## Claim C9 -/

/-- C9 confirmed: constructing with only_train_dvae_connection_layers =
true leaves every parameter frozen (requires_grad = false, DO_NOT_TRAIN
attribute present) except the parameters of the
DiscreteSpectrogramConditioningBlock instances of the down path, which
end with requires_grad = true and no attribute; and the flag changes no
construction-time state other than those parameter flags. -/
theorem C9_freeze_flags (conditioning_inputs_provided : Bool) (model_channels : ℤ)
    (spectrogram_conditioning_resolutions : List ℕ)
    (channel_mult : List ℚ) (num_res_blocks : List ℕ) :
    (constructNet true conditioning_inputs_provided model_channels
        spectrogram_conditioning_resolutions channel_mult num_res_blocks).params.all
      frozenFlagsOk = true ∧
    { constructNet false conditioning_inputs_provided model_channels
        spectrogram_conditioning_resolutions channel_mult num_res_blocks with
      params := (constructNet true conditioning_inputs_provided model_channels
        spectrogram_conditioning_resolutions channel_mult num_res_blocks).params }
      = constructNet true conditioning_inputs_provided model_channels
          spectrogram_conditioning_resolutions channel_mult num_res_blocks := by
  constructor
  · simp only [constructNet, freeze_params, if_pos, List.map_map]
    rw [List.all_eq_true]
    intro x hx
    rw [List.mem_map] at hx
    obtain ⟨t, -, rfl⟩ := hx
    cases t <;> rfl
  · rfl

/-! ## Claim C10 -/

/-- C10 confirmed: getitem selects the source path at index mod
len(paths_hq), so every non-negative index on a non-empty path list
resolves to a valid path, and any index at or beyond the dataset length
wraps around instead of going out of range. -/
theorem C10_index_wraps {α : Type} (paths_hq : List α) (index : ℕ)
    (hne : paths_hq ≠ []) :
    (∃ p, getitem_path paths_hq index = some p) ∧
      getitem_path paths_hq index
        = getitem_path paths_hq (index % dataset_len paths_hq) := by
  have hpos : 0 < paths_hq.length := List.length_pos.mpr hne
  constructor
  · unfold getitem_path
    have hlt : index % paths_hq.length < paths_hq.length := Nat.mod_lt _ hpos
    exact ⟨_, List.get?_eq_get hlt⟩
  · unfold getitem_path dataset_len
    rw [Nat.mod_mod_of_dvd index dvd_rfl]

theorem C10_index_wraps_witness :
    ([10, 20, 30] ≠ ([] : List ℕ)) ∧
      ((∃ p, getitem_path [10, 20, 30] 7 = some p) ∧
        getitem_path [10, 20, 30] 7
          = getitem_path [10, 20, 30] (7 % dataset_len [10, 20, 30])) :=
  ⟨by decide, C10_index_wraps [10, 20, 30] 7 (by decide)⟩
